import Mathlib

set_option maxRecDepth 8192

/-!
# Verification of the nanobot QQ channel adapter and config loader

Shallow embedding of `src/nanobot/channels/qq.py` and
`src/nanobot/config/loader.py`.

Conventions:
* Python `str.strip()` is modelled over `List Char` with the ASCII
  whitespace set Python uses.
* Attribute reads that may raise on a malformed raw event are modelled
  as `Except String` values carried by the raw-event record; `getattr`
  with a default never raises and is modelled with `Option`.
* The `try/except` wrapper of each handler is the explicit `match` on
  those `Except` values: an `.error` branch returns with no publish,
  which models "caught, logged, dropped, not propagated".
* `collections.deque(maxlen=1000)` is modelled as a `List String`
  where `append` keeps the last 1000 elements.
-/

namespace Nanobot

/-- Capacity of the dedup window: `deque(maxlen=1000)` in
`QQChannel.__init__` (qq.py line 61). -/
def dedupCap : Nat := 1000

/-- The last `n` elements of a list (the contents of a `deque` with
`maxlen = n` after the whole list has been appended). -/
def lastN (n : Nat) (l : List α) : List α := l.drop (l.length - n)

/-- `deque.append` on a `deque(maxlen=dedupCap)`: append on the right,
evicting from the left when the deque is full. -/
def dedupPush (st : List String) (id : String) : List String :=
  lastN dedupCap (st ++ [id])

/-- The dedup check-and-record step done at the top of `_on_message` and
`_on_group_message` (qq.py lines 129-132 and 152-155): membership test,
then append when absent.  Returns `true` (and the updated window) when
the identifier is new, `false` (window unchanged) when it is a replay. -/
def recordIfNew (st : List String) (id : String) : Bool × List String :=
  if id ∈ st then (false, st) else (true, dedupPush st id)

/-- The dedup effect of delivering a stream of inbound events with the
given identifiers, in delivery order: fold the check-and-record step
over the list. -/
def insertAll (st : List String) (ids : List String) : List String :=
  ids.foldl (fun s i => (recordIfNew s i).2) st

/-- The whitespace characters stripped by Python `str.strip()` (ASCII
range). -/
def isPyWs (c : Char) : Bool :=
  c = ' ' || c = '\t' || c = '\n' || c = '\x0d' || c = '\x0b' || c = '\x0c'

/-- Python `str.strip()`: drop leading and trailing whitespace. -/
def pyStrip (s : List Char) : List Char :=
  ((s.dropWhile isPyWs).reverse.dropWhile isPyWs).reverse

/-- The `author` object of a C2C message, as read through
`getattr(author, 'id', None)` and `getattr(author, 'user_openid', 'unknown')`
(qq.py line 135).  `id = none` covers both a missing attribute and an
attribute equal to `None`; `user_openid = none` covers a missing
attribute. -/
structure Author where
  id : Option String
  user_openid : Option String
  deriving Repr, DecidableEq

/-- A raw C2C/direct message event.  Each top-level attribute read may
raise on a malformed event, modelled by `Except String`.  `content` may
be `None` (`data.content or ""` in the code), modelled by the inner
`Option`. -/
structure C2CMessage where
  id : Except String String
  author : Except String Author
  content : Except String (Option (List Char))
  deriving Repr

/-- A raw group @-mention event, with the attribute reads done by
`_on_group_message` (qq.py lines 153-161). -/
structure GroupMessage where
  id : Except String String
  group_openid : Except String String
  author_member_openid : Except String String
  content : Except String (Option (List Char))
  deriving Repr

/-- A message published onto the bus via `_handle_message`. -/
structure InboundPublish where
  sender_id : String
  chat_id : String
  content : List Char
  metadata : List (String × String)
  deriving Repr, DecidableEq

/-- The sender-identifier expression of `_on_message` (qq.py line 135):
`str(getattr(author, 'id', None) or getattr(author, 'user_openid', 'unknown'))`.
A present non-empty `id` is truthy and wins; otherwise the expression
falls back to `user_openid`, and to the literal `"unknown"` when that
attribute is missing. -/
def authorUserId (a : Author) : String :=
  match a.id with
  | some s => if s = "" then a.user_openid.getD "unknown" else s
  | none => a.user_openid.getD "unknown"

/-- `QQChannel._on_message` (qq.py lines 126-147).  Input: the dedup
window and the raw event; output: the updated window and the list of
bus publishes (empty = dropped).  An `.error` field read models an
exception, which the surrounding `try/except` turns into a logged drop. -/
def onMessage (st : List String) (data : C2CMessage) :
    List String × List InboundPublish :=
  match data.id with
  | .error _ => (st, [])
  | .ok mid =>
    if mid ∈ st then (st, [])
    else
      let st' := dedupPush st mid
      match data.author with
      | .error _ => (st', [])
      | .ok author =>
        match data.content with
        | .error _ => (st', [])
        | .ok c =>
          let user_id := authorUserId author
          let content := pyStrip (c.getD [])
          if content = [] then (st', [])
          else (st', [{ sender_id := user_id, chat_id := user_id,
                        content := content,
                        metadata := [("message_id", mid)] }])

/-- The mention-stripping steps of `_on_group_message`
(qq.py lines 161-166): strip, then if the result starts with `"/"`
drop that one character (`content[1:]`) and strip again, then a final
strip. -/
def stripMention (raw : Option (List Char)) : List Char :=
  let content := pyStrip (raw.getD [])
  let content :=
    if content.head? = some '/' then pyStrip content.tail else content
  pyStrip content

/-- `QQChannel._on_group_message` (qq.py lines 149-183). -/
def onGroupMessage (st : List String) (data : GroupMessage) :
    List String × List InboundPublish :=
  match data.id with
  | .error _ => (st, [])
  | .ok mid =>
    if mid ∈ st then (st, [])
    else
      let st' := dedupPush st mid
      match data.group_openid with
      | .error _ => (st', [])
      | .ok gid =>
        match data.author_member_openid with
        | .error _ => (st', [])
        | .ok member =>
          match data.content with
          | .error _ => (st', [])
          | .ok c =>
            let content := stripMention c
            if content = [] then (st', [])
            else (st', [{ sender_id := member, chat_id := gid,
                          content := content,
                          metadata := [("msg_type", "group"),
                                       ("group_openid", gid),
                                       ("message_id", mid)] }])

/-- A platform API call made by `send` (qq.py lines 111-122). -/
inductive ApiCall where
  | postGroupMessage (group_openid : String) (content : List Char)
      (msg_id : Option String)
  | postC2CMessage (openid : String) (content : List Char)
  deriving Repr, DecidableEq

/-- Log lines emitted by `send`. -/
inductive SendLog where
  | warnNotInitialized
  | errorSending
  deriving Repr, DecidableEq

/-- The state `send` can observe, plus the transport's readiness.  The
code stores only `_client` (qq.py line 60); whether the underlying
websocket is currently established ("Ready" in the spec's connection
state machine) lives inside the botpy SDK and is not tracked by the
channel.  `ready` is carried here only so that claims about the Ready
state can be stated; `send` itself never reads it, exactly as in the
source. -/
structure SendState where
  clientInitialized : Bool
  ready : Bool
  deriving Repr, DecidableEq

/-- An outbound bus message (`OutboundMessage` in nanobot.bus.events):
`chat_id`, `content`, and an optional metadata mapping (`msg.metadata
or {}` in the code). -/
structure OutboundMessage where
  chat_id : String
  content : List Char
  metadata : Option (List (String × String))
  deriving Repr, DecidableEq

/-- Python `dict.get(k)` on a string-valued metadata mapping. -/
def metaGet (m : List (String × String)) (k : String) : Option String :=
  (m.find? (fun p => p.1 == k)).map (fun p => p.2)

/-- `QQChannel.send` (qq.py lines 103-124).  Returns the platform API
calls made and the log lines emitted.  A missing `"group_openid"` key
on the group branch raises `KeyError`, which the `except` clause turns
into an error log with no call made. -/
def send (st : SendState) (msg : OutboundMessage) :
    List ApiCall × List SendLog :=
  if st.clientInitialized = false then ([], [.warnNotInitialized])
  else
    let metadata := msg.metadata.getD []
    if metaGet metadata "msg_type" = some "group" then
      match metaGet metadata "group_openid" with
      | some gid =>
          ([.postGroupMessage gid msg.content (metaGet metadata "message_id")],
           [])
      | none => ([], [.errorSending])
    else
      ([.postC2CMessage msg.chat_id msg.content], [])

/-- The lifecycle state `stop` manipulates: the `_running` flag and
whether `_bot_task` is set (qq.py lines 62, 74, 78, 92-101). -/
structure ChannelState where
  running : Bool
  botTask : Bool
  deriving Repr, DecidableEq

/-- The observable steps of `QQChannel.stop` (qq.py lines 92-101), in
program order.  `awaitTaskSuppressCancelled` models
`try: await self._bot_task except asyncio.CancelledError: pass`. -/
inductive StopAction where
  | clearRunFlag
  | cancelTask
  | awaitTaskSuppressCancelled
  | logStopped
  deriving Repr, DecidableEq

/-- `QQChannel.stop` (qq.py lines 92-101): clear `_running`, then, if a
bot task exists, cancel it and await it (suppressing the cancellation
signal), then log.  Total: no branch raises. -/
def stop (st : ChannelState) : ChannelState × List StopAction :=
  let st' := { st with running := false }
  if st.botTask then
    (st', [.clearRunFlag, .cancelTask, .awaitTaskSuppressCancelled,
           .logStopped])
  else
    (st', [.clearRunFlag, .logStopped])

/-- Observable events of one pass of the `_run_bot` loop. -/
inductive BotEvent where
  | connectAttempt
  | connected
  | warnError
  | reconnectLog
  | sleep5
  deriving Repr, DecidableEq

/-- Result of running `_run_bot` for a bounded number of iterations:
the event trace and whether the `while` condition became false and the
loop returned (`exited = false` means the fuel ran out with the loop
still going). -/
structure RunOutcome where
  events : List BotEvent
  exited : Bool
  deriving Repr, DecidableEq

/-- `QQChannel._run_bot` (qq.py lines 81-90), unrolled for `fuel`
iterations starting at attempt index `i`.  The externally mutated
`_running` flag is an oracle `flag`, read twice per iteration (at the
`while` test, index `2*i`, and at the post-attempt `if`, index
`2*i+1`).  `out i` is the outcome of the `i`-th
`self._client.start(...)` call: `.ok` means it established the
connection (the transport signalled ready) and later returned on
disconnect; `.error` means it raised, which the `except` turns into a
warning log.  Either way, while the flag is still set the loop logs,
sleeps 5 seconds, and retries. -/
def runBot (flag : Nat → Bool) (out : Nat → Except String Unit) :
    Nat → Nat → RunOutcome
  | 0, _ => ⟨[], false⟩
  | fuel+1, i =>
    if flag (2*i) = false then ⟨[], true⟩
    else
      let attempt := match out i with
        | .ok _ => [BotEvent.connectAttempt, BotEvent.connected]
        | .error _ => [BotEvent.connectAttempt, BotEvent.warnError]
      let backoff :=
        if flag (2*i+1) then [BotEvent.reconnectLog, BotEvent.sleep5] else []
      let rest := runBot flag out fuel (i+1)
      ⟨attempt ++ backoff ++ rest.events, rest.exited⟩

/-- A JSON-like configuration value, as handled by
`src/nanobot/config/loader.py`.  `_deep_merge` only ever looks inside
dicts, so scalars and arrays are atoms here.  Dicts are association
lists in insertion order, matching Python dict iteration. -/
inductive JValue where
  | atomS : String → JValue
  | atomI : Int → JValue
  | atomB : Bool → JValue
  | dict : List (String × JValue) → JValue

/-- Python `key in result` / `result[key]` on a dict, as an association
list lookup (keys are unique in a Python dict, so the first match is
the match). -/
def lookupKey : List (String × JValue) → String → Option JValue
  | [], _ => none
  | (k', v') :: rest, k => if k' = k then some v' else lookupKey rest k

/-- Python `result[key] = value` on a dict: replace the binding in
place when the key is present (keeping insertion order), append a new
binding otherwise. -/
def setKey : List (String × JValue) → String → JValue →
    List (String × JValue)
  | [], k, v => [(k, v)]
  | (k', v') :: rest, k, v =>
    if k' = k then (k, v) :: rest else (k', v') :: setKey rest k v

mutual

/-- The body of the `for` loop of `_deep_merge` (loader.py lines
73-77): `result[key] = _deep_merge(result[key], value)` when the key is
present in `result` and both sides are dicts, `result[key] = value`
otherwise.  `bv` is `result.get(key)`. -/
def mergeVal (bv : Option JValue) (v : JValue) : JValue :=
  match bv, v with
  | some (.dict bd), .dict od => .dict (deepMerge bd od)
  | _, _ => v

/-- `_deep_merge` (loader.py lines 70-78): start from a copy of `base`
and fold the entries of `override` into it in order. -/
def deepMerge : List (String × JValue) → List (String × JValue) →
    List (String × JValue)
  | base, [] => base
  | base, (k, v) :: rest =>
    deepMerge (setKey base k (mergeVal (lookupKey base k) v)) rest

end

/-- Lookup of a nested configuration path (e.g. `["gateway", "port"]`)
in a dict. -/
def pathLookup (d : List (String × JValue)) : List String → Option JValue
  | [] => none
  | [k] => lookupKey d k
  | k :: k' :: rest =>
    match lookupKey d k with
    | some (.dict d') => pathLookup d' (k' :: rest)
    | _ => none

/-- The nested dict `_get_env_overrides` (loader.py lines 48-67) builds
for a single `NANOBOT_`-prefixed variable: the suffix of the name is
lowercased and split on `__`, and the `setdefault` walk creates one
singleton dict per path component. -/
def buildNested : List String → JValue → List (String × JValue)
  | [], _ => []
  | [k], v => [(k, v)]
  | k :: k' :: rest, v => [(k, .dict (buildNested (k' :: rest) v))]

/-- Python `str.split("__")`: cut at each non-overlapping occurrence of
the two-character delimiter, scanning left to right.  `acc` holds the
(reversed) characters of the current piece. -/
def splitDD : List Char → List Char → List String
  | [], acc => [String.mk acc.reverse]
  | '_' :: '_' :: rest, acc => String.mk acc.reverse :: splitDD rest []
  | c :: rest, acc => splitDD rest (c :: acc)

/-- The path encoded by a `NANOBOT_`-prefixed environment variable name
(loader.py line 61): drop the 8-character prefix
(`key[len(ENV_PREFIX):]`), lowercase, split on the `__` delimiter. -/
def envPath (name : String) : List String :=
  splitDD ((name.data.drop 8).map Char.toLower) []

/-- `load_config` (loader.py lines 97-115) restricted to the merging it
performs: `merged = _deep_merge(file_data, env_overrides)`, after which
`Config.model_validate(merged)` fills in defaults for keys absent from
`merged`.  The pydantic schema is not part of this repository's source;
Modelled from the spec: "Environment overrides always take precedence
over file contents over defaults", the default layer is a lowest-
precedence dict merged under the file/env result. -/
def loadConfigMerged (defaults fileData envOverrides :
    List (String × JValue)) : List (String × JValue) :=
  deepMerge defaults (deepMerge fileData envOverrides)

/-- `true` when a value is a Python dict (the only shape `_deep_merge`
recurses into). -/
def isDict : JValue → Bool
  | .dict _ => true
  | _ => false

/-- All keys of an association-list dict are distinct. -/
def distinctKeys : List (String × JValue) → Bool
  | [] => true
  | (k, _) :: rest => !(rest.any (fun p => p.1 == k)) && distinctKeys rest

mutual

/-- A well-formed JSON value: every dict in it has distinct keys (true
of anything parsed from JSON or built by `_get_env_overrides`). -/
def wfV : JValue → Bool
  | .atomS _ => true
  | .atomI _ => true
  | .atomB _ => true
  | .dict d => distinctKeys d && wfL d

/-- All values of an association list are well-formed. -/
def wfL : List (String × JValue) → Bool
  | [] => true
  | (_, v) :: rest => wfV v && wfL rest

end

/-! ## Lemmas about `pyStrip` -/

theorem pyStrip_eq (s : List Char) :
    pyStrip s = List.rdropWhile isPyWs (s.dropWhile isPyWs) := rfl

theorem pyStrip_nil : pyStrip [] = [] := rfl

/-- `str.strip()` is idempotent. -/
theorem pyStrip_idem (s : List Char) : pyStrip (pyStrip s) = pyStrip s := by
  rw [pyStrip_eq s, pyStrip_eq]
  have h1 : ∀ A : List Char,
      (∀ hl : 0 < A.length, ¬isPyWs (A.get ⟨0, hl⟩) = true) →
      List.dropWhile isPyWs (List.rdropWhile isPyWs A) =
        List.rdropWhile isPyWs A := by
    intro A hhead
    rw [List.dropWhile_eq_self_iff]
    intro hl
    have hpre := List.rdropWhile_prefix isPyWs A
    have hlen : 0 < A.length := by
      have := List.IsPrefix.length_le hpre
      omega
    have hget : (List.rdropWhile isPyWs A).get ⟨0, hl⟩ = A.get ⟨0, hlen⟩ := by
      simp only [List.get_eq_getElem]
      exact List.IsPrefix.getElem hpre hl
    rw [hget]
    exact hhead hlen
  rw [h1 _ (List.dropWhile_get_zero_not isPyWs s), List.rdropWhile_idempotent]

/-! ## Lemmas about `stripMention` -/

theorem stripMention_slash (c : Option (List Char)) (rest : List Char)
    (h : pyStrip (c.getD []) = '/' :: rest) :
    stripMention c = pyStrip rest := by
  simp only [stripMention, h, List.head?_cons, List.tail_cons, if_pos]
  exact pyStrip_idem rest

theorem stripMention_no_slash (c : Option (List Char))
    (h : (pyStrip (c.getD [])).head? ≠ some '/') :
    stripMention c = pyStrip (c.getD []) := by
  simp only [stripMention, if_neg h]
  exact pyStrip_idem _

/-! ## Lemmas about the dedup window -/

theorem lastN_of_length_le {α : Type} {l : List α} {n : Nat}
    (h : l.length ≤ n) : lastN n l = l := by
  unfold lastN
  have h0 : l.length - n = 0 := by omega
  rw [h0, List.drop_zero]

theorem length_lastN {α : Type} (n : Nat) (l : List α) :
    (lastN n l).length = min n l.length := by
  unfold lastN
  rw [List.length_drop]
  omega

theorem length_dedupPush_le (st : List String) (id : String) :
    (dedupPush st id).length ≤ dedupCap := by
  unfold dedupPush
  rw [length_lastN]
  omega

theorem mem_dedupPush (st : List String) (id : String) :
    id ∈ dedupPush st id := by
  unfold dedupPush lastN
  have hc : dedupCap = 1000 := rfl
  have hk : (st ++ [id]).length - dedupCap ≤ st.length := by
    simp only [List.length_append, List.length_cons, List.length_nil]
    omega
  rw [List.drop_append_of_le_length hk]
  simp

theorem mem_of_mem_lastN {α : Type} {a : α} {n : Nat} {l : List α}
    (h : a ∈ lastN n l) : a ∈ l :=
  List.mem_of_mem_drop h

theorem lastN_eq_rtake {α : Type} (n : Nat) (l : List α) :
    lastN n l = l.rtake n := rfl

theorem lastN_append_lastN {α : Type} (n : Nat) (x y : List α) :
    lastN n (lastN n x ++ y) = lastN n (x ++ y) := by
  rw [lastN_eq_rtake n (lastN n x ++ y), lastN_eq_rtake n (x ++ y),
    lastN_eq_rtake n x, List.rtake_eq_reverse_take_reverse,
    List.rtake_eq_reverse_take_reverse, List.rtake_eq_reverse_take_reverse,
    List.reverse_append, List.reverse_reverse, List.reverse_append,
    List.take_append_eq_append_take, List.take_append_eq_append_take,
    List.take_take, List.length_reverse,
    Nat.min_eq_left (Nat.sub_le n y.length)]

theorem insertAll_nil (st : List String) : insertAll st [] = st := rfl

theorem insertAll_cons (st : List String) (a : String) (ids : List String) :
    insertAll st (a :: ids) = insertAll ((recordIfNew st a).2) ids := rfl

/-- Inserting a stream of pairwise-distinct identifiers, none already in
the window, leaves exactly the last `dedupCap` elements of the
concatenation: the deque evicts in strict insertion (FIFO) order. -/
theorem insertAll_fresh_eq_lastN :
    ∀ (ids : List String) (st : List String), st.length ≤ dedupCap →
      (∀ a ∈ ids, a ∉ st) → ids.Nodup →
      insertAll st ids = lastN dedupCap (st ++ ids) := by
  intro ids
  induction ids with
  | nil =>
    intro st hlen _ _
    rw [insertAll_nil, List.append_nil, lastN_of_length_le hlen]
  | cons a ids ih =>
    intro st hlen hfresh hnodup
    have hna : a ∉ st := hfresh a (by simp)
    have hrec : (recordIfNew st a).2 = dedupPush st a := by
      simp [recordIfNew, hna]
    rw [insertAll_cons, hrec]
    have hstep := ih (dedupPush st a) (length_dedupPush_le st a)
      (by
        intro b hb hbmem
        have hb' : b ∈ st ++ [a] := mem_of_mem_lastN hbmem
        rcases List.mem_append.mp hb' with h | h
        · exact hfresh b (by simp [hb]) h
        · have hba : b = a := by simpa using h
          have : a ∉ ids := (List.nodup_cons.mp hnodup).1
          exact this (hba ▸ hb))
      ((List.nodup_cons.mp hnodup).2)
    rw [hstep]
    unfold dedupPush
    rw [lastN_append_lastN]
    congr 1
    simp

theorem mem_lastN_before_cap (w : List String) (id : String)
    (ids : List String) (h : ids.length < dedupCap) :
    id ∈ lastN dedupCap ((w ++ [id]) ++ ids) := by
  unfold lastN
  have hk : ((w ++ [id]) ++ ids).length - dedupCap ≤ w.length := by
    simp only [List.length_append, List.length_cons, List.length_nil]
    omega
  have hk' : ((w ++ [id]) ++ ids).length - dedupCap ≤ (w ++ [id]).length := by
    rw [List.length_append]
    omega
  rw [List.drop_append_of_le_length hk', List.drop_append_of_le_length hk]
  simp

theorem lastN_at_cap (w : List String) (id : String) (ids : List String)
    (h : ids.length = dedupCap) :
    lastN dedupCap ((w ++ [id]) ++ ids) = ids := by
  unfold lastN
  have hidx : ((w ++ [id]) ++ ids).length - dedupCap = (w ++ [id]).length := by
    simp only [List.length_append, List.length_cons, List.length_nil]
    omega
  rw [hidx, List.drop_left]

/-! ## Lemmas about the inbound handlers -/

/-- A replayed identifier is dropped unconditionally by `_on_message`:
no publish, window unchanged. -/
theorem onMessage_replay (st : List String) (data : C2CMessage)
    (mid : String) (hid : data.id = .ok mid) (hmem : mid ∈ st) :
    onMessage st data = (st, []) := by
  cases data with
  | mk i a c =>
    dsimp only at hid
    subst hid
    simp [onMessage, hmem]

/-- For a fresh identifier, `_on_message` always records it, whatever
happens to the rest of the event. -/
theorem onMessage_window (st : List String) (data : C2CMessage)
    (mid : String) (hid : data.id = .ok mid) (hnew : mid ∉ st) :
    (onMessage st data).1 = dedupPush st mid := by
  cases data with
  | mk i a c =>
    dsimp only at hid
    subst hid
    cases a with
    | error e => simp [onMessage, hnew]
    | ok author =>
      cases c with
      | error e => simp [onMessage, hnew]
      | ok cc =>
        simp only [onMessage, if_neg hnew]
        split <;> rfl

/-- A replayed identifier is dropped unconditionally by
`_on_group_message`: no publish, window unchanged. -/
theorem onGroupMessage_replay (st : List String) (data : GroupMessage)
    (mid : String) (hid : data.id = .ok mid) (hmem : mid ∈ st) :
    onGroupMessage st data = (st, []) := by
  cases data with
  | mk i g m c =>
    dsimp only at hid
    subst hid
    simp [onGroupMessage, hmem]

/-- For a fresh identifier, `_on_group_message` always records it,
whatever happens to the rest of the event. -/
theorem onGroupMessage_window (st : List String) (data : GroupMessage)
    (mid : String) (hid : data.id = .ok mid) (hnew : mid ∉ st) :
    (onGroupMessage st data).1 = dedupPush st mid := by
  cases data with
  | mk i g m c =>
    dsimp only at hid
    subst hid
    cases g with
    | error e => simp [onGroupMessage, hnew]
    | ok gid =>
      cases m with
      | error e => simp [onGroupMessage, hnew]
      | ok member =>
        cases c with
        | error e => simp [onGroupMessage, hnew]
        | ok cc =>
          simp only [onGroupMessage, if_neg hnew]
          split <;> rfl

/-! ## Claim theorems -/

/-- Claim C1: the dedup window has capacity 1000 and evicts in strict
insertion (FIFO) order.  After `id` is recorded, a redelivery before
1000 other distinct identifiers have been inserted is dropped
unconditionally (no publish); once 1000 other distinct identifiers have
been inserted, `id` has been evicted and is accepted as new again. -/
theorem c1_dedup_fifo_window :
    dedupCap = 1000 ∧
    (∀ (w : List String) (id : String) (ids : List String),
      w.length ≤ dedupCap → id ∉ w →
      (∀ a ∈ ids, a ∉ dedupPush w id) → ids.Nodup →
      (ids.length < dedupCap →
        id ∈ insertAll (dedupPush w id) ids ∧
        ∀ data : C2CMessage, data.id = .ok id →
          onMessage (insertAll (dedupPush w id) ids) data =
            (insertAll (dedupPush w id) ids, [])) ∧
      (ids.length = dedupCap →
        id ∉ insertAll (dedupPush w id) ids ∧
        (recordIfNew (insertAll (dedupPush w id) ids) id).1 = true)) := by
  refine ⟨rfl, ?_⟩
  intro w id ids hwlen hidw hfresh hnodup
  have hlen' : (dedupPush w id).length ≤ dedupCap :=
    length_dedupPush_le w id
  have heq : insertAll (dedupPush w id) ids =
      lastN dedupCap ((w ++ [id]) ++ ids) := by
    rw [insertAll_fresh_eq_lastN ids (dedupPush w id) hlen' hfresh hnodup]
    unfold dedupPush
    rw [lastN_append_lastN]
  constructor
  · intro hlt
    have hmem : id ∈ insertAll (dedupPush w id) ids := by
      rw [heq]
      exact mem_lastN_before_cap w id ids hlt
    exact ⟨hmem, fun data hid => onMessage_replay _ data id hid hmem⟩
  · intro hcap
    have hnot : id ∉ insertAll (dedupPush w id) ids := by
      rw [heq, lastN_at_cap w id ids hcap]
      intro hin
      exact hfresh id hin (mem_dedupPush w id)
    exact ⟨hnot, by simp [recordIfNew, hnot]⟩

/-- 1000 pairwise-distinct identifiers, none equal to `"m"`: the
strings `"a"`, `"aa"`, ..., of lengths 1 to 1000. -/
def c1WitnessIds : List String :=
  (List.range 1000).map (fun n => String.mk (List.replicate (n + 1) 'a'))

/-- Witness for C1: after `"m"` is recorded and 1000 other distinct
identifiers are inserted, `"m"` is gone from the window and accepted as
new again. -/
theorem c1_dedup_fifo_window_witness :
    "m" ∉ insertAll (dedupPush [] "m") c1WitnessIds ∧
    (recordIfNew (insertAll (dedupPush [] "m") c1WitnessIds) "m").1 = true := by
  have hfresh : ∀ a ∈ c1WitnessIds, a ∉ dedupPush [] "m" := by
    intro a ha hmem
    have hpm : dedupPush [] "m" = ["m"] := by decide
    rw [hpm] at hmem
    have ham : a = "m" := by simpa using hmem
    obtain ⟨n, _, hfa⟩ := List.mem_map.mp ha
    rw [ham] at hfa
    have hdata : List.replicate (n + 1) 'a' = "m".data := congrArg String.data hfa
    rw [List.replicate_succ] at hdata
    have : 'a' = 'm' ∧ List.replicate n 'a' = [] := by
      exact ⟨List.head_eq_of_cons_eq hdata, List.tail_eq_of_cons_eq hdata⟩
    exact absurd this.1 (by decide)
  have hnodup : c1WitnessIds.Nodup := by
    refine List.Nodup.map ?_ (List.nodup_range 1000)
    intro m n hmn
    have hdata : List.replicate (m + 1) 'a' = List.replicate (n + 1) 'a' :=
      congrArg String.data hmn
    have hl := congrArg List.length hdata
    simp only [List.length_replicate] at hl
    omega
  have hlen : c1WitnessIds.length = dedupCap := by
    simp [c1WitnessIds, dedupCap]
  exact (c1_dedup_fifo_window.2 [] "m" c1WitnessIds (by simp)
    (by simp) hfresh hnodup).2 hlen

/-- Claim C2: for every direct-message event whose id is not in the
dedup window, the sender identifier is the primary author id, falling
back to the open-id field, falling back to `"unknown"`; the content is
trimmed; an event whose trimmed content is empty is dropped with no
publish; otherwise exactly one message is published with
`sender_id = chat_id =` that identifier, the trimmed content, and
metadata `{message_id: event id}`. -/
theorem c2_direct_normalization :
    (∀ (st : List String) (data : C2CMessage) (mid : String)
        (author : Author) (c : Option (List Char)),
        data.id = .ok mid → mid ∉ st → data.author = .ok author →
        data.content = .ok c →
        (pyStrip (c.getD []) = [] →
          onMessage st data = (dedupPush st mid, [])) ∧
        (pyStrip (c.getD []) ≠ [] →
          onMessage st data =
            (dedupPush st mid,
             [{ sender_id := authorUserId author,
                chat_id := authorUserId author,
                content := pyStrip (c.getD []),
                metadata := [("message_id", mid)] }]))) ∧
    (∀ (u : String) (o : Option String), u ≠ "" →
        authorUserId { id := some u, user_openid := o } = u) ∧
    (∀ (o : String),
        authorUserId { id := none, user_openid := some o } = o) ∧
    (authorUserId { id := none, user_openid := none } = "unknown") := by
  refine ⟨?_, ?_, ?_, rfl⟩
  · intro st data mid author c hid hnew hau hc
    cases data with
    | mk i a cc =>
      dsimp only at hid hau hc
      subst hid
      subst hau
      subst hc
      constructor
      · intro hemp
        simp [onMessage, hnew, hemp]
      · intro hne
        simp [onMessage, hnew, hne]
  · intro u o hu
    simp [authorUserId, hu]
  · intro o
    simp [authorUserId]

/-- Witness for C2, at the claim's own example: event id `"m1"`,
author id `"u1"`, content `" hi "` yields the single publish
`{sender_id: "u1", chat_id: "u1", content: "hi",
metadata: {message_id: "m1"}}`. -/
theorem c2_direct_normalization_witness :
    onMessage []
        { id := .ok "m1", author := .ok (⟨some "u1", none⟩ : Author),
          content := .ok (some " hi ".data) } =
      (["m1"],
       [{ sender_id := "u1", chat_id := "u1", content := "hi".data,
          metadata := [("message_id", "m1")] }]) := by
  have h := ((c2_direct_normalization.1 []
      { id := .ok "m1", author := .ok (⟨some "u1", none⟩ : Author),
        content := .ok (some " hi ".data) }
      "m1" ⟨some "u1", none⟩ (some " hi ".data)
      rfl (by simp) rfl rfl).2 (by decide))
  have h1 : pyStrip ((some " hi ".data).getD []) = "hi".data := by decide
  have h2 : authorUserId ⟨some "u1", none⟩ = "u1" := by decide
  have h3 : dedupPush [] "m1" = ["m1"] := by decide
  rw [h1, h2, h3] at h
  exact h

/-- Claim C3: for every group-mention event whose id is not in the
dedup window, after trimming, a leading `"/"` (and only that one
character) is removed and the result trimmed again; the event is
dropped if the result is empty; content not beginning with `"/"` is
passed through unchanged apart from trimming.  `"/do something"`
normalizes to `"do something"`, and `"do something"` is unchanged. -/
theorem c3_group_mention_stripping :
    (∀ (c : Option (List Char)) (rest : List Char),
        pyStrip (c.getD []) = '/' :: rest → stripMention c = pyStrip rest) ∧
    (∀ (c : Option (List Char)), (pyStrip (c.getD [])).head? ≠ some '/' →
        stripMention c = pyStrip (c.getD [])) ∧
    (∀ (st : List String) (data : GroupMessage) (mid gid member : String)
        (c : Option (List Char)),
        data.id = .ok mid → mid ∉ st → data.group_openid = .ok gid →
        data.author_member_openid = .ok member → data.content = .ok c →
        (stripMention c = [] →
          onGroupMessage st data = (dedupPush st mid, [])) ∧
        (stripMention c ≠ [] →
          onGroupMessage st data =
            (dedupPush st mid,
             [{ sender_id := member, chat_id := gid,
                content := stripMention c,
                metadata := [("msg_type", "group"), ("group_openid", gid),
                             ("message_id", mid)] }]))) ∧
    (stripMention (some "/do something".data) = "do something".data) ∧
    (stripMention (some "do something".data) = "do something".data) := by
  refine ⟨stripMention_slash, stripMention_no_slash, ?_, by decide, by decide⟩
  intro st data mid gid member c hid hnew hg hm hc
  cases data with
  | mk i g m cc =>
    dsimp only at hid hg hm hc
    subst hid
    subst hg
    subst hm
    subst hc
    constructor
    · intro hemp
      simp [onGroupMessage, hnew, hemp]
    · intro hne
      simp [onGroupMessage, hnew, hne]

/-- Witness for C3: the slash branch applied at the claim's example
`"/do something"`. -/
theorem c3_group_mention_stripping_witness :
    stripMention (some "/do something".data) = pyStrip "do something".data :=
  c3_group_mention_stripping.1 (some "/do something".data)
    "do something".data (by decide)

/-- Claim C6: an exception while reading any field of a raw inbound
event (modelled by an `.error` field) is caught: the handler returns
normally with no bus publish, and the only state it may have touched is
the dedup window's record of the event id (made before the failing
read).  Totality of `onMessage`/`onGroupMessage` is the embedded form
of "the exception is never propagated"; both handlers are pure
functions of the window alone, so subsequent events and the connection
state are unaffected. -/
theorem c6_malformed_events_dropped :
    (∀ (st : List String) (data : C2CMessage) (e : String),
        data.id = .error e → onMessage st data = (st, [])) ∧
    (∀ (st : List String) (data : C2CMessage) (mid : String) (e : String),
        data.id = .ok mid → data.author = .error e →
        onMessage st data =
          (if mid ∈ st then st else dedupPush st mid, [])) ∧
    (∀ (st : List String) (data : C2CMessage) (mid : String)
        (author : Author) (e : String),
        data.id = .ok mid → data.author = .ok author →
        data.content = .error e →
        onMessage st data =
          (if mid ∈ st then st else dedupPush st mid, [])) ∧
    (∀ (st : List String) (data : GroupMessage) (e : String),
        data.id = .error e → onGroupMessage st data = (st, [])) ∧
    (∀ (st : List String) (data : GroupMessage) (mid : String) (e : String),
        data.id = .ok mid → data.group_openid = .error e →
        onGroupMessage st data =
          (if mid ∈ st then st else dedupPush st mid, [])) ∧
    (∀ (st : List String) (data : GroupMessage) (mid gid : String)
        (e : String),
        data.id = .ok mid → data.group_openid = .ok gid →
        data.author_member_openid = .error e →
        onGroupMessage st data =
          (if mid ∈ st then st else dedupPush st mid, [])) ∧
    (∀ (st : List String) (data : GroupMessage) (mid gid member : String)
        (e : String),
        data.id = .ok mid → data.group_openid = .ok gid →
        data.author_member_openid = .ok member → data.content = .error e →
        onGroupMessage st data =
          (if mid ∈ st then st else dedupPush st mid, [])) := by
  refine ⟨?_, ?_, ?_, ?_, ?_, ?_, ?_⟩
  · intro st data e hid
    cases data with
    | mk i a c =>
      dsimp only at hid
      subst hid
      simp [onMessage]
  · intro st data mid e hid hau
    cases data with
    | mk i a c =>
      dsimp only at hid hau
      subst hid
      subst hau
      by_cases hmem : mid ∈ st <;> simp [onMessage, hmem]
  · intro st data mid author e hid hau hc
    cases data with
    | mk i a c =>
      dsimp only at hid hau hc
      subst hid
      subst hau
      subst hc
      by_cases hmem : mid ∈ st <;> simp [onMessage, hmem]
  · intro st data e hid
    cases data with
    | mk i g m c =>
      dsimp only at hid
      subst hid
      simp [onGroupMessage]
  · intro st data mid e hid hg
    cases data with
    | mk i g m c =>
      dsimp only at hid hg
      subst hid
      subst hg
      by_cases hmem : mid ∈ st <;> simp [onGroupMessage, hmem]
  · intro st data mid gid e hid hg hm
    cases data with
    | mk i g m c =>
      dsimp only at hid hg hm
      subst hid
      subst hg
      subst hm
      by_cases hmem : mid ∈ st <;> simp [onGroupMessage, hmem]
  · intro st data mid gid member e hid hg hm hc
    cases data with
    | mk i g m c =>
      dsimp only at hid hg hm hc
      subst hid
      subst hg
      subst hm
      subst hc
      by_cases hmem : mid ∈ st <;> simp [onGroupMessage, hmem]

/-- Witness for C6: an event whose very first field read raises is
dropped with no publish and no state change. -/
theorem c6_malformed_events_dropped_witness :
    onMessage []
        { id := .error "bad payload", author := .error "bad payload",
          content := .error "bad payload" } =
      ([], []) :=
  c6_malformed_events_dropped.1 []
    { id := .error "bad payload", author := .error "bad payload",
      content := .error "bad payload" } "bad payload" rfl

/-- Claim C10: for every inbound event whose id can be read, the id is
recorded in the dedup window before content validation or any further
field extraction, so even an event that produced no publish consumes
its id, and redelivery of that id is dropped. -/
theorem c10_id_recorded_first :
    (∀ (st : List String) (data : C2CMessage) (mid : String),
        data.id = .ok mid → mid ∉ st →
        (onMessage st data).1 = dedupPush st mid ∧
        mid ∈ (onMessage st data).1 ∧
        (∀ data' : C2CMessage, data'.id = .ok mid →
          onMessage (onMessage st data).1 data' =
            ((onMessage st data).1, []))) ∧
    (∀ (st : List String) (data : GroupMessage) (mid : String),
        data.id = .ok mid → mid ∉ st →
        (onGroupMessage st data).1 = dedupPush st mid ∧
        mid ∈ (onGroupMessage st data).1 ∧
        (∀ data' : GroupMessage, data'.id = .ok mid →
          onGroupMessage (onGroupMessage st data).1 data' =
            ((onGroupMessage st data).1, []))) := by
  constructor
  · intro st data mid hid hnew
    have hw := onMessage_window st data mid hid hnew
    have hmem : mid ∈ (onMessage st data).1 := by
      rw [hw]
      exact mem_dedupPush st mid
    exact ⟨hw, hmem, fun data' hid' =>
      onMessage_replay _ data' mid hid' hmem⟩
  · intro st data mid hid hnew
    have hw := onGroupMessage_window st data mid hid hnew
    have hmem : mid ∈ (onGroupMessage st data).1 := by
      rw [hw]
      exact mem_dedupPush st mid
    exact ⟨hw, hmem, fun data' hid' =>
      onGroupMessage_replay _ data' mid hid' hmem⟩

/-- Witness for C10: an event dropped because its content read raised
still consumes its id, and an immediate redelivery is dropped. -/
theorem c10_id_recorded_first_witness :
    onMessage
        (onMessage []
          { id := .ok "m9", author := .error "author gone",
            content := .error "content gone" }).1
        { id := .ok "m9", author := .error "author gone",
          content := .error "content gone" } =
      ((onMessage []
          { id := .ok "m9", author := .error "author gone",
            content := .error "content gone" }).1, []) :=
  (c10_id_recorded_first.1 []
      { id := .ok "m9", author := .error "author gone",
        content := .error "content gone" } "m9" rfl (by simp)).2.2
    { id := .ok "m9", author := .error "author gone",
      content := .error "content gone" } rfl

/-- Claim C4: with the client initialized, a message whose metadata
discriminator `"msg_type"` equals `"group"` (and which carries a group
id) produces exactly one group-send call — group id and optional
reply-to id from metadata — and no direct-send call; any message
without that discriminator produces exactly one direct-send call using
`chat_id`, and no group-send call. -/
theorem c4_outbound_routing :
    (∀ (st : SendState) (msg : OutboundMessage) (gid : String),
        st.clientInitialized = true →
        metaGet (msg.metadata.getD []) "msg_type" = some "group" →
        metaGet (msg.metadata.getD []) "group_openid" = some gid →
        send st msg =
          ([.postGroupMessage gid msg.content
              (metaGet (msg.metadata.getD []) "message_id")], [])) ∧
    (∀ (st : SendState) (msg : OutboundMessage),
        st.clientInitialized = true →
        metaGet (msg.metadata.getD []) "msg_type" ≠ some "group" →
        send st msg = ([.postC2CMessage msg.chat_id msg.content], [])) := by
  constructor
  · intro st msg gid hinit hgrp hgid
    simp [send, hinit, hgrp, hgid]
  · intro st msg hinit hgrp
    simp [send, hinit, hgrp]

/-- Witness for C4: one concrete group-targeted message and one
concrete default message. -/
theorem c4_outbound_routing_witness :
    send ⟨true, true⟩
        { chat_id := "u1", content := "hello".data,
          metadata := some [("msg_type", "group"), ("group_openid", "g1"),
                            ("message_id", "m1")] } =
      ([.postGroupMessage "g1" "hello".data
          (metaGet [("msg_type", "group"), ("group_openid", "g1"),
                    ("message_id", "m1")] "message_id")], []) ∧
    send ⟨true, true⟩
        { chat_id := "u1", content := "hello".data, metadata := none } =
      ([.postC2CMessage "u1" "hello".data], []) :=
  ⟨c4_outbound_routing.1 ⟨true, true⟩
      { chat_id := "u1", content := "hello".data,
        metadata := some [("msg_type", "group"), ("group_openid", "g1"),
                          ("message_id", "m1")] }
      "g1" rfl (by decide) (by decide),
   c4_outbound_routing.2 ⟨true, true⟩
      { chat_id := "u1", content := "hello".data, metadata := none }
      rfl (by decide)⟩

/-- Claim C5, as stated, is false on the code: `send` only checks
whether `self._client` is initialized (qq.py line 105), not whether the
connection is Ready.  After `start()` the client is set before the
websocket is up, so a `send` issued while the connection is not Ready
still makes a platform API call.  Concretely: client initialized,
`ready = false`, a plain direct message — `send` performs the
direct-send call. -/
theorem c5_not_ready_counterexample :
    ¬ (∀ (st : SendState) (msg : OutboundMessage),
        st.ready = false → (send st msg).1 = []) := by
  intro h
  have hx := h ⟨true, false⟩
    { chat_id := "u1", content := "hi".data, metadata := none } rfl
  simp [send, metaGet] at hx

/-- Claim C5, amended: whenever `send()` is called while the client has
not been initialized (`self._client` is falsy — the only availability
check the code performs), it logs a warning and returns without making
any platform send API call; no queueing and no retry. -/
theorem c5_send_uninitialized_guard :
    ∀ (st : SendState) (msg : OutboundMessage),
      st.clientInitialized = false →
      send st msg = ([], [.warnNotInitialized]) := by
  intro st msg h
  simp [send, h]

/-- Witness for the amended C5: a send before `start()` produces no API
call and one warning. -/
theorem c5_send_uninitialized_guard_witness :
    send ⟨false, false⟩
        { chat_id := "u1", content := "hi".data, metadata := none } =
      ([], [.warnNotInitialized]) :=
  c5_send_uninitialized_guard ⟨false, false⟩
    { chat_id := "u1", content := "hi".data, metadata := none } rfl

/-- Claim C7: the supervisor loop never exits while the run flag is
active and exits only once a flag read is false; an exception from a
connection attempt is caught, logged as a warning, and — while the flag
is still set — followed by the fixed 5-second backoff and a retry;
three consecutive connect failures yield three backoff-then-retry
cycles without terminating, and a fourth, successful attempt brings the
connection up. -/
theorem c7_supervisor_reconnect_loop :
    (∀ (flag : Nat → Bool) (out : Nat → Except String Unit) (fuel i : Nat),
        (∀ t, flag t = true) → (runBot flag out fuel i).exited = false) ∧
    (∀ (flag : Nat → Bool) (out : Nat → Except String Unit) (fuel i : Nat),
        (runBot flag out fuel i).exited = true → ∃ t, flag t = false) ∧
    (∀ (flag : Nat → Bool) (out : Nat → Except String Unit) (fuel i : Nat)
        (e : String),
        flag (2 * i) = true → out i = .error e → flag (2 * i + 1) = true →
        runBot flag out (fuel + 1) i =
          ⟨[.connectAttempt, .warnError, .reconnectLog, .sleep5] ++
              (runBot flag out fuel (i + 1)).events,
            (runBot flag out fuel (i + 1)).exited⟩) ∧
    (runBot (fun _ => true)
        (fun i => if i < 3 then .error "connect timeout" else .ok ()) 4 0 =
      ⟨[.connectAttempt, .warnError, .reconnectLog, .sleep5,
        .connectAttempt, .warnError, .reconnectLog, .sleep5,
        .connectAttempt, .warnError, .reconnectLog, .sleep5,
        .connectAttempt, .connected, .reconnectLog, .sleep5], false⟩) := by
  refine ⟨?_, ?_, ?_, by decide⟩
  · intro flag out fuel
    induction fuel with
    | zero => intro i _; rfl
    | succ n ih =>
      intro i hall
      simp only [runBot, hall (2 * i), Bool.true_eq_false, if_false]
      exact ih (i + 1) hall
  · intro flag out fuel
    induction fuel with
    | zero =>
      intro i h
      exact absurd h (by simp [runBot])
    | succ n ih =>
      intro i h
      by_cases hf : flag (2 * i) = false
      · exact ⟨2 * i, hf⟩
      · have ht : flag (2 * i) = true := by
          revert hf
          cases flag (2 * i) <;> simp
        simp only [runBot, ht, Bool.true_eq_false, if_false] at h
        exact ih (i + 1) h
  · intro flag out fuel i e h1 h2 h3
    simp [runBot, h1, h2, h3]

/-- Witness for C7: a perpetually-failing transport with the flag held
active keeps the loop running, and one failing pass produces exactly
attempt, warning, reconnect log, 5-second sleep. -/
theorem c7_supervisor_reconnect_loop_witness :
    (runBot (fun _ => true) (fun _ => .error "down") 7 0).exited = false ∧
    runBot (fun _ => true) (fun _ => .error "down") 1 5 =
      ⟨[.connectAttempt, .warnError, .reconnectLog, .sleep5] ++
          (runBot (fun _ => true) (fun _ => .error "down") 0 6).events,
        (runBot (fun _ => true) (fun _ => .error "down") 0 6).exited⟩ :=
  ⟨c7_supervisor_reconnect_loop.1 (fun _ => true) (fun _ => .error "down")
      7 0 (fun _ => rfl),
   c7_supervisor_reconnect_loop.2.2.1 (fun _ => true)
      (fun _ => .error "down") 0 5 "down" rfl rfl rfl⟩

/-- Claim C8: `stop()` never raises (it is a total function here),
always leaves the channel Stopped (`running = false`), is safe to call
twice in a row or before `start()` (no task: nothing to cancel), clears
the run flag first, then cancels and awaits the active task while
suppressing the expected cancellation signal; and with the flag
cleared, the supervisor loop exits at once with no further connect
attempt or backoff. -/
theorem c8_stop_safe_and_idempotent :
    (∀ st : ChannelState, (stop st).1.running = false) ∧
    (∀ st : ChannelState, (stop (stop st).1).1.running = false) ∧
    (∀ st : ChannelState, st.botTask = false →
        stop st = ({ st with running := false },
          [.clearRunFlag, .logStopped])) ∧
    (∀ st : ChannelState, st.botTask = true →
        stop st = ({ st with running := false },
          [.clearRunFlag, .cancelTask, .awaitTaskSuppressCancelled,
           .logStopped])) ∧
    (∀ (out : Nat → Except String Unit) (fuel i : Nat),
        runBot (fun _ => false) out (fuel + 1) i = ⟨[], true⟩) := by
  refine ⟨?_, ?_, ?_, ?_, ?_⟩
  · intro st
    by_cases h : st.botTask <;> simp [stop, h]
  · intro st
    by_cases h : st.botTask <;> simp [stop, h]
  · intro st h
    simp [stop, h]
  · intro st h
    simp [stop, h]
  · intro out fuel i
    simp [runBot]

/-- Witness for C8: stopping a never-started channel (no task, flag
already clear) is safe and leaves the channel Stopped; stopping a
running channel with a task cancels and awaits it after clearing the
flag. -/
theorem c8_stop_safe_and_idempotent_witness :
    stop ⟨false, false⟩ = (⟨false, false⟩,
      [.clearRunFlag, .logStopped]) ∧
    stop ⟨true, true⟩ = (⟨false, true⟩,
      [.clearRunFlag, .cancelTask, .awaitTaskSuppressCancelled,
       .logStopped]) ∧
    runBot (fun _ => false) (fun _ => .ok ()) 3 0 = ⟨[], true⟩ :=
  ⟨c8_stop_safe_and_idempotent.2.2.1 ⟨false, false⟩ rfl,
   c8_stop_safe_and_idempotent.2.2.2.1 ⟨true, true⟩ rfl,
   c8_stop_safe_and_idempotent.2.2.2.2 (fun _ => .ok ()) 2 0⟩

/-! ## Lemmas about the config merge -/

theorem lookupKey_setKey_self (d : List (String × JValue)) (k : String)
    (v : JValue) : lookupKey (setKey d k v) k = some v := by
  induction d with
  | nil => simp [setKey, lookupKey]
  | cons kv rest ih =>
    obtain ⟨k', v'⟩ := kv
    by_cases h : k' = k
    · subst h
      simp [setKey, lookupKey]
    · simp [setKey, lookupKey, h, ih]

theorem lookupKey_setKey_ne (d : List (String × JValue)) (k' k : String)
    (v : JValue) (h : k' ≠ k) :
    lookupKey (setKey d k' v) k = lookupKey d k := by
  induction d with
  | nil => simp [setKey, lookupKey, h]
  | cons kv rest ih =>
    obtain ⟨k0, v0⟩ := kv
    by_cases h0 : k0 = k'
    · subst h0
      simp [setKey, lookupKey, h]
    · simp [setKey, lookupKey, h0, ih]

theorem lookupKey_deepMerge_of_not_key :
    ∀ (ov base : List (String × JValue)) (k : String),
      (∀ p ∈ ov, p.1 ≠ k) →
      lookupKey (deepMerge base ov) k = lookupKey base k := by
  intro ov
  induction ov with
  | nil =>
    intro base k _
    rfl
  | cons kv rest ih =>
    obtain ⟨k', v'⟩ := kv
    intro base k hk
    have hne : k' ≠ k := hk (k', v') (by simp)
    rw [deepMerge, ih _ k (fun p hp => hk p (by simp [hp])),
      lookupKey_setKey_ne _ _ _ _ hne]

/-- `mergeVal` leaves a non-dict override value untouched. -/
theorem mergeVal_of_not_dict (bv : Option JValue) (v : JValue)
    (hv : isDict v = false) : mergeVal bv v = v := by
  cases bv with
  | none => cases v <;> rfl
  | some w =>
    cases w <;> cases v <;> first
      | rfl
      | exact absurd hv (by simp [isDict])

theorem mergeVal_dict_dict (bd od : List (String × JValue)) :
    mergeVal (some (.dict bd)) (.dict od) = .dict (deepMerge bd od) := rfl

theorem mergeVal_dict_of_no_base_dict (bv : Option JValue)
    (od : List (String × JValue)) (h : ∀ bd, bv ≠ some (.dict bd)) :
    mergeVal bv (.dict od) = .dict od := by
  cases bv with
  | none => rfl
  | some w =>
    cases w with
    | dict bd => exact absurd rfl (h bd)
    | atomS s => rfl
    | atomI n => rfl
    | atomB b => rfl

theorem not_key_of_any_false {rest : List (String × JValue)} {k : String}
    (h : rest.any (fun p => p.1 == k) = false) : ∀ p ∈ rest, p.1 ≠ k := by
  intro p hp
  have h' := List.any_eq_false.mp h p hp
  simpa using h'

theorem lookupKey_deepMerge_atom :
    ∀ (ov base : List (String × JValue)) (k : String) (v : JValue),
      distinctKeys ov = true → lookupKey ov k = some v → isDict v = false →
      lookupKey (deepMerge base ov) k = some v := by
  intro ov
  induction ov with
  | nil =>
    intro base k v _ hl _
    simp [lookupKey] at hl
  | cons kv rest ih =>
    obtain ⟨k', v'⟩ := kv
    intro base k v hd hl hv
    have hd' : rest.any (fun p => p.1 == k') = false ∧
        distinctKeys rest = true := by
      simpa [distinctKeys, Bool.and_eq_true, Bool.not_eq_true'] using hd
    by_cases hk : k' = k
    · subst hk
      have hv' : v' = v := by simpa [lookupKey] using hl
      subst hv'
      rw [deepMerge,
        lookupKey_deepMerge_of_not_key rest _ k'
          (not_key_of_any_false hd'.1),
        mergeVal_of_not_dict _ _ hv, lookupKey_setKey_self]
    · have hl' : lookupKey rest k = some v := by
        simpa [lookupKey, hk] using hl
      rw [deepMerge]
      exact ih _ k v hd'.2 hl' hv

theorem lookupKey_deepMerge_dict_dict :
    ∀ (ov base : List (String × JValue)) (k : String)
      (od bd : List (String × JValue)),
      distinctKeys ov = true → lookupKey ov k = some (.dict od) →
      lookupKey base k = some (.dict bd) →
      lookupKey (deepMerge base ov) k = some (.dict (deepMerge bd od)) := by
  intro ov
  induction ov with
  | nil =>
    intro base k od bd _ hl _
    simp [lookupKey] at hl
  | cons kv rest ih =>
    obtain ⟨k', v'⟩ := kv
    intro base k od bd hd hl hb
    have hd' : rest.any (fun p => p.1 == k') = false ∧
        distinctKeys rest = true := by
      simpa [distinctKeys, Bool.and_eq_true, Bool.not_eq_true'] using hd
    by_cases hk : k' = k
    · subst hk
      have hv' : v' = .dict od := by simpa [lookupKey] using hl
      subst hv'
      rw [deepMerge,
        lookupKey_deepMerge_of_not_key rest _ k'
          (not_key_of_any_false hd'.1),
        hb, mergeVal_dict_dict, lookupKey_setKey_self]
    · have hl' : lookupKey rest k = some (.dict od) := by
        simpa [lookupKey, hk] using hl
      rw [deepMerge]
      refine ih _ k od bd hd'.2 hl' ?_
      rw [lookupKey_setKey_ne _ _ _ _ hk]
      exact hb

theorem lookupKey_deepMerge_dict_no_base :
    ∀ (ov base : List (String × JValue)) (k : String)
      (od : List (String × JValue)),
      distinctKeys ov = true → lookupKey ov k = some (.dict od) →
      (∀ bd, lookupKey base k ≠ some (.dict bd)) →
      lookupKey (deepMerge base ov) k = some (.dict od) := by
  intro ov
  induction ov with
  | nil =>
    intro base k od _ hl _
    simp [lookupKey] at hl
  | cons kv rest ih =>
    obtain ⟨k', v'⟩ := kv
    intro base k od hd hl hb
    have hd' : rest.any (fun p => p.1 == k') = false ∧
        distinctKeys rest = true := by
      simpa [distinctKeys, Bool.and_eq_true, Bool.not_eq_true'] using hd
    by_cases hk : k' = k
    · subst hk
      have hv' : v' = .dict od := by simpa [lookupKey] using hl
      subst hv'
      rw [deepMerge,
        lookupKey_deepMerge_of_not_key rest _ k'
          (not_key_of_any_false hd'.1),
        mergeVal_dict_of_no_base_dict _ _ hb, lookupKey_setKey_self]
    · have hl' : lookupKey rest k = some (.dict od) := by
        simpa [lookupKey, hk] using hl
      rw [deepMerge]
      refine ih _ k od hd'.2 hl' ?_
      intro bd
      rw [lookupKey_setKey_ne _ _ _ _ hk]
      exact hb bd

theorem wfV_of_lookup :
    ∀ (d : List (String × JValue)) (k : String) (v : JValue),
      wfL d = true → lookupKey d k = some v → wfV v = true := by
  intro d
  induction d with
  | nil =>
    intro k v _ hl
    simp [lookupKey] at hl
  | cons kv rest ih =>
    obtain ⟨k', v'⟩ := kv
    intro k v hw hl
    have hw' : wfV v' = true ∧ wfL rest = true := by
      simpa [wfL, Bool.and_eq_true] using hw
    by_cases hk : k' = k
    · subst hk
      have : v' = v := by simpa [lookupKey] using hl
      subst this
      exact hw'.1
    · have hl' : lookupKey rest k = some v := by
        simpa [lookupKey, hk] using hl
      exact ih k v hw'.2 hl'

/-- The central precedence property of `_deep_merge`: a (non-dict)
value reachable in the override along a nested path is the value found
at that path in the merge result, whatever the base holds there. -/
theorem pathLookup_deepMerge_override :
    ∀ (path : List String) (ov base : List (String × JValue)) (v : JValue),
      wfV (.dict ov) = true → isDict v = false →
      pathLookup ov path = some v →
      pathLookup (deepMerge base ov) path = some v := by
  intro path
  induction path with
  | nil =>
    intro ov base v _ _ hp
    simp [pathLookup] at hp
  | cons k path' ih =>
    intro ov base v hwf hv hp
    have hwf' : distinctKeys ov = true ∧ wfL ov = true := by
      simpa [wfV, Bool.and_eq_true] using hwf
    cases path' with
    | nil =>
      have hl : lookupKey ov k = some v := hp
      exact lookupKey_deepMerge_atom ov base k v hwf'.1 hl hv
    | cons k2 rest =>
      cases hov : lookupKey ov k with
      | none => rw [pathLookup, hov] at hp; exact absurd hp (by simp)
      | some w =>
        cases w with
        | atomS s => rw [pathLookup, hov] at hp; exact absurd hp (by simp)
        | atomI n => rw [pathLookup, hov] at hp; exact absurd hp (by simp)
        | atomB b => rw [pathLookup, hov] at hp; exact absurd hp (by simp)
        | dict od =>
          rw [pathLookup, hov] at hp
          have hwfod : wfV (.dict od) = true :=
            wfV_of_lookup ov k (.dict od) hwf'.2 hov
          by_cases hb : ∃ bd, lookupKey base k = some (.dict bd)
          · obtain ⟨bd, hbd⟩ := hb
            have hm := lookupKey_deepMerge_dict_dict ov base k od bd
              hwf'.1 hov hbd
            rw [pathLookup, hm]
            exact ih od bd v hwfod hv hp
          · have hb' : ∀ bd, lookupKey base k ≠ some (.dict bd) := by
              intro bd hc
              exact hb ⟨bd, hc⟩
            have hm := lookupKey_deepMerge_dict_no_base ov base k od
              hwf'.1 hov hb'
            rw [pathLookup, hm]
            exact hp

theorem any_key_setKey :
    ∀ (d : List (String × JValue)) (k k' : String) (v : JValue),
      k ≠ k' →
      (setKey d k v).any (fun p => p.1 == k') = d.any (fun p => p.1 == k') := by
  intro d
  induction d with
  | nil =>
    intro k k' v h
    simp [setKey, h]
  | cons kv rest ih =>
    obtain ⟨k0, v0⟩ := kv
    intro k k' v h
    by_cases h0 : k0 = k
    · subst h0
      simp [setKey]
    · simp [setKey, h0, ih _ _ v h]

theorem distinctKeys_setKey :
    ∀ (d : List (String × JValue)) (k : String) (v : JValue),
      distinctKeys d = true → distinctKeys (setKey d k v) = true := by
  intro d
  induction d with
  | nil =>
    intro k v _
    simp [setKey, distinctKeys]
  | cons kv rest ih =>
    obtain ⟨k0, v0⟩ := kv
    intro k v hd
    have hd' : rest.any (fun p => p.1 == k0) = false ∧
        distinctKeys rest = true := by
      simpa [distinctKeys, Bool.and_eq_true, Bool.not_eq_true'] using hd
    by_cases h0 : k0 = k
    · subst h0
      simpa [setKey, distinctKeys, Bool.and_eq_true, Bool.not_eq_true']
        using hd'
    · have hne : k ≠ k0 := fun hc => h0 hc.symm
      simp [setKey, h0, distinctKeys, Bool.and_eq_true, Bool.not_eq_true',
        any_key_setKey rest k k0 v hne, hd'.1, ih k v hd'.2]

theorem wfL_setKey :
    ∀ (d : List (String × JValue)) (k : String) (v : JValue),
      wfL d = true → wfV v = true → wfL (setKey d k v) = true := by
  intro d
  induction d with
  | nil =>
    intro k v _ hv
    simp [setKey, wfL, hv]
  | cons kv rest ih =>
    obtain ⟨k0, v0⟩ := kv
    intro k v hw hv
    have hw' : wfV v0 = true ∧ wfL rest = true := by
      simpa [wfL, Bool.and_eq_true] using hw
    by_cases h0 : k0 = k
    · subst h0
      simp [setKey, wfL, Bool.and_eq_true, hv, hw'.2]
    · simp [setKey, h0, wfL, Bool.and_eq_true, hw'.1, ih k v hw'.2 hv]

/-- Well-formedness (all nested dicts have distinct keys) is preserved
by `_deep_merge`; fuel-indexed auxiliary for the nested recursion. -/
theorem wf_deepMerge_aux :
    ∀ (n : Nat) (ov base : List (String × JValue)), sizeOf ov ≤ n →
      distinctKeys base = true → wfL base = true →
      distinctKeys ov = true → wfL ov = true →
      distinctKeys (deepMerge base ov) = true ∧
        wfL (deepMerge base ov) = true := by
  intro n
  induction n with
  | zero =>
    intro ov base hsz
    cases ov with
    | nil => simp at hsz
    | cons kv rest => simp at hsz
  | succ n ih =>
    intro ov base hsz hdb hwb hdo hwo
    cases ov with
    | nil => exact ⟨hdb, hwb⟩
    | cons kv rest =>
      obtain ⟨k, v⟩ := kv
      have hdo' : rest.any (fun p => p.1 == k) = false ∧
          distinctKeys rest = true := by
        simpa [distinctKeys, Bool.and_eq_true, Bool.not_eq_true'] using hdo
      have hwo' : wfV v = true ∧ wfL rest = true := by
        simpa [wfL, Bool.and_eq_true] using hwo
      have hszv : sizeOf v + sizeOf rest + 2 ≤ n + 1 := by
        have hs : sizeOf ((k, v) :: rest) =
            1 + (1 + sizeOf k + sizeOf v) + sizeOf rest := by
          simp only [List.cons.sizeOf_spec, Prod.mk.sizeOf_spec]
        omega
      have hX : wfV (mergeVal (lookupKey base k) v) = true := by
        by_cases hvd : isDict v = false
        · rw [mergeVal_of_not_dict _ _ hvd]
          exact hwo'.1
        · obtain ⟨od, hod⟩ : ∃ od, v = .dict od := by
            cases v with
            | dict od => exact ⟨od, rfl⟩
            | atomS s => simp [isDict] at hvd
            | atomI m => simp [isDict] at hvd
            | atomB b => simp [isDict] at hvd
          subst hod
          have hwod : distinctKeys od = true ∧ wfL od = true := by
            simpa [wfV, Bool.and_eq_true] using hwo'.1
          cases hbv : lookupKey base k with
          | none =>
            rw [mergeVal_dict_of_no_base_dict _ _ (by simp [hbv])]
            exact hwo'.1
          | some w =>
            cases w with
            | atomS s =>
              rw [mergeVal_dict_of_no_base_dict _ _ (by simp [hbv])]
              exact hwo'.1
            | atomI m =>
              rw [mergeVal_dict_of_no_base_dict _ _ (by simp [hbv])]
              exact hwo'.1
            | atomB b =>
              rw [mergeVal_dict_of_no_base_dict _ _ (by simp [hbv])]
              exact hwo'.1
            | dict bd =>
              rw [mergeVal_dict_dict]
              have hwbd : distinctKeys bd = true ∧ wfL bd = true := by
                have := wfV_of_lookup base k (.dict bd) hwb hbv
                simpa [wfV, Bool.and_eq_true] using this
              have hszod : sizeOf od ≤ n := by
                have hs : sizeOf (JValue.dict od) = 1 + sizeOf od :=
                  JValue.dict.sizeOf_spec od
                omega
              have hmerge := ih od bd hszod hwbd.1 hwbd.2 hwod.1 hwod.2
              simp [wfV, Bool.and_eq_true, hmerge.1, hmerge.2]
      have hszrest : sizeOf rest ≤ n := by omega
      rw [deepMerge]
      exact ih rest (setKey base k (mergeVal (lookupKey base k) v))
        hszrest (distinctKeys_setKey base k _ hdb)
        (wfL_setKey base k _ hwb hX) hdo'.2 hwo'.2

/-- Well-formedness is preserved by `_deep_merge`. -/
theorem wfV_deepMerge (base ov : List (String × JValue))
    (hdb : distinctKeys base = true) (hwb : wfL base = true)
    (hdo : distinctKeys ov = true) (hwo : wfL ov = true) :
    wfV (.dict (deepMerge base ov)) = true := by
  have h := wf_deepMerge_aux (sizeOf ov) ov base le_rfl hdb hwb hdo hwo
  simp [wfV, Bool.and_eq_true, h.1, h.2]

/-- Claim C9: for every configuration key present both in the config
file and as a prefixed environment-variable override (nested path
encoded with the `__` delimiter), the loaded configuration holds the
environment value: environment overrides take precedence over file
contents, which take precedence over defaults, under `_deep_merge` of
nested mappings. -/
theorem c9_env_overrides_precedence :
    (∀ (defaults fileData env : List (String × JValue))
        (path : List String) (v w : JValue),
        wfV (.dict fileData) = true → wfV (.dict env) = true →
        isDict v = false →
        pathLookup env path = some v →
        pathLookup fileData path = some w →
        pathLookup (loadConfigMerged defaults fileData env) path = some v) ∧
    (envPath "NANOBOT_GATEWAY__PORT" = ["gateway", "port"]) ∧
    (pathLookup
        (loadConfigMerged []
          [("gateway", .dict [("port", .atomI 8080)])]
          (buildNested ["gateway", "port"] (.atomI 9090)))
        ["gateway", "port"] = some (.atomI 9090)) := by
  refine ⟨?_, by decide, rfl⟩
  intro defaults fileData env path v w hwf hwe hv hp _
  have hwf' : distinctKeys fileData = true ∧ wfL fileData = true := by
    simpa [wfV, Bool.and_eq_true] using hwf
  have hwe' : distinctKeys env = true ∧ wfL env = true := by
    simpa [wfV, Bool.and_eq_true] using hwe
  have step1 : pathLookup (deepMerge fileData env) path = some v :=
    pathLookup_deepMerge_override path env fileData v hwe hv hp
  have hwm : wfV (.dict (deepMerge fileData env)) = true :=
    wfV_deepMerge fileData env hwf'.1 hwf'.2 hwe'.1 hwe'.2
  exact pathLookup_deepMerge_override path (deepMerge fileData env)
    defaults v hwm hv step1

/-- Witness for C9, at the claim's scenario: the file sets
`gateway.port = 8080`, the environment override (path
`["gateway", "port"]`, from `NANOBOT_GATEWAY__PORT`) sets `9090`; the
loaded configuration holds `9090`. -/
theorem c9_env_overrides_precedence_witness :
    pathLookup
        (loadConfigMerged [("gateway", .dict [("port", .atomI 1)])]
          [("gateway", .dict [("port", .atomI 8080)])]
          [("gateway", .dict [("port", .atomI 9090)])])
        ["gateway", "port"] = some (.atomI 9090) :=
  c9_env_overrides_precedence.1
    [("gateway", .dict [("port", .atomI 1)])]
    [("gateway", .dict [("port", .atomI 8080)])]
    [("gateway", .dict [("port", .atomI 9090)])]
    ["gateway", "port"] (.atomI 9090) (.atomI 8080)
    rfl rfl rfl rfl rfl

end Nanobot
